import Mathlib

set_option maxRecDepth 8000

/-! Shallow embedding of the data-reconciliation pipeline in
opc_python/utils/loading.py: dilution-string normalization, compound-id
reconciliation, perceptual-row expansion, replicate flagging, the
CID-dilution index with its cache, and the prediction writer.
Machine floats are modelled as rationals; np.log10 is modelled with
Real.logb through a relation, since real logarithms are noncomputable. -/

/-- Apostrophe character, built numerically so that source tokens such as
the dilution string 1/1,000 wrapped in single quotes can be written. -/
def squote : Char := Char.ofNat 39

/-- Model of Python str.replace with a one-character pattern and empty
replacement: every occurrence of the character is removed. -/
def removeChar (c : Char) (l : List Char) : List Char :=
  l.filter (fun a => decide (a ≠ c))

/-- Model of Python str.split on a single separator character. -/
def splitOnChar (c : Char) : List Char → List (List Char)
  | [] => [[]]
  | x :: xs =>
    match splitOnChar c xs with
    | [] => [[]]
    | h :: t => if x = c then [] :: h :: t else (x :: h) :: t

/-- Numeric value of a digit string, as folded up by int()/float(). -/
def digitsVal (l : List Char) : ℕ :=
  l.foldl (fun a c => 10 * a + (c.toNat - 48)) 0

/-- Parse a nonempty all-digit string, failing otherwise. -/
def digitsVal? (l : List Char) : Option ℕ :=
  if l ≠ [] ∧ (∀ c ∈ l, c.isDigit = true) then some (digitsVal l) else none

/-- Model of Python float() restricted to unsigned decimal literals,
the grammar the dilution files use: digits with an optional single
point. Anything else fails, as float() raises ValueError. -/
def parseRat? (l : List Char) : Option ℚ :=
  match splitOnChar '.' l with
  | [a] => (digitsVal? a).map (fun n => (n : ℚ))
  | [a, b] =>
    if (a ++ b) ≠ [] ∧ (∀ c ∈ a ++ b, c.isDigit = true) then
      some ((digitsVal a : ℚ) + (digitsVal b : ℚ) / (10 : ℚ) ^ b.length)
    else none
  | _ => none

/-- The quote stripping in dilution2magnitude: remove double quotes,
then single quotes, as the two str.replace calls do. -/
def removeQuotes (l : List Char) : List Char :=
  removeChar squote (removeChar '"' l)

/-- Denominator extraction of dilution2magnitude:
dilution.replace quotes away, split on the slash, take component 1,
remove commas, and read the number. none models the raised exception:
IndexError when no slash is present, ValueError when float() fails. -/
def dilution2denom (s : String) : Option ℚ :=
  match (splitOnChar '/' (removeQuotes s.data))[1]? with
  | none => none
  | some tok => parseRat? (removeChar ',' tok)

/-- The value computed by dilution2magnitude, as a relation because real
logarithms are noncomputable: x is the magnitude of s when the denominator
parses to a nonzero d and x = log10 (1/d). A zero denominator raises
ZeroDivisionError in the source and so has no magnitude. -/
def dilution2magnitude (s : String) (x : ℝ) : Prop :=
  ∃ d : ℚ, dilution2denom s = some d ∧ d ≠ 0 ∧ x = Real.logb 10 (1 / (d : ℝ))

/-- The five data kinds accepted by get_CID_dilutions. -/
inductive Kind where
  | training
  | trainingNorep
  | replicated
  | leaderboard
  | testset
deriving DecidableEq

/-- The kind-name dispatch at the top of load_perceptual_data: valid kind
strings map to the underlying file stem; none models the ValueError
raised for an unknown kind name. -/
def kind2 (kind : String) : Option String :=
  if kind = "training" ∨ kind = "training-norep" ∨ kind = "replicated" then
    some "TrainSet"
  else if kind = "leaderboard" then some "LeaderboardSet"
  else if kind = "testset" then some "TestSet"
  else none

/-- The molecular feature sources accepted by get_molecular_data. -/
inductive MolSource where
  | dragon
  | episuite
  | morgan
  | nspdk
  | gramian
  | mordred
deriving DecidableEq

/-- The source-name dispatch of get_molecular_data; none models the
exception raised for an unknown source name. -/
def sourceOfString (source : String) : Option MolSource :=
  if source = "dragon" then some MolSource.dragon
  else if source = "episuite" then some MolSource.episuite
  else if source = "morgan" then some MolSource.morgan
  else if source = "nspdk" then some MolSource.nspdk
  else if source = "gramian" then some MolSource.gramian
  else if source = "mordred" then some MolSource.mordred
  else none

/-- One raw tab-separated row of a perceptual data file after the fixed
per-field coercions of load_perceptual_data: field 0 is the CID, field 2
the replicate marker, field 3 the high/low label, field 4 the dilution
string, field 6 the intensity value and fields 7 onward the remaining
descriptor values, with the NaN token mapped to none. -/
structure Row where
  cid : ℤ
  odor : String
  replicate : Bool
  highLow : String
  dilution : String
  intensity : Option ℚ
  rest : List (Option ℚ)
deriving DecidableEq

/-- The hard-coded dilution token 1/1,000 wrapped in single quotes that
load_perceptual_data assigns to the split-off intensity row. -/
def dilutionM3String : String :=
  String.singleton squote ++ "1/1,000" ++ String.singleton squote

/-- The row expansion of load_perceptual_data for the leaderboard kind,
and for the testset kind away from magnitude -3. The first emitted row
keeps the non-intensity values at the original dilution under the flipped
high/low label; the second keeps only the intensity value, under the
original label, at the quoted dilution token 1/1,000. Every other
kind/magnitude combination keeps the row as a single record. -/
def expandRow (kind : Kind) (mag : String → ℚ) (r : Row) : List Row :=
  if kind = Kind.leaderboard ∨ (kind = Kind.testset ∧ mag r.dilution ≠ -3) then
    [{ r with highLow := (if r.highLow = "high" then "low" else "high"),
              intensity := none },
     { r with highLow :=
                (if (if r.highLow = "high" then "low" else "high") = "high"
                 then "low" else "high"),
              dilution := dilutionM3String,
              rest := r.rest.map (fun _ => none) }]
  else [r]

/-- The CID-dilution pairs of the raw training rows carrying the replicate
marker; load_perceptual_data collects these from the formatted training
frame before filtering the derived training kinds. -/
def withReplicates (mag : String → ℚ) (lines : List Row) : List (ℤ × ℚ) :=
  (lines.filter (fun r => r.replicate)).map (fun r => (r.cid, mag r.dilution))

/-- The row-level body of load_perceptual_data: per-kind filtering of the
raw rows of the underlying file (the TrainSet file for the three training
kinds) and the leaderboard/testset row expansion. The float magnitude
np.log10 is abstracted as a rational-valued parameter. -/
def load_perceptual_data (kind : Kind) (mag : String → ℚ)
    (lines : List Row) : List Row :=
  match kind with
  | Kind.training => lines
  | Kind.trainingNorep =>
      lines.filter (fun r =>
        decide ((r.cid, mag r.dilution) ∉ withReplicates mag lines))
  | Kind.replicated =>
      lines.filter (fun r =>
        decide ((r.cid, mag r.dilution) ∈ withReplicates mag lines))
  | Kind.leaderboard => lines.flatMap (expandRow Kind.leaderboard mag)
  | Kind.testset => lines.flatMap (expandRow Kind.testset mag)

/-- load_perceptual_data with exception propagation: the dilution field of
every raw row is parsed; a single malformed dilution aborts the whole
call, returning none, rather than skipping the bad row. -/
def load_perceptual_dataE (kind : Kind) (magOpt : String → Option ℚ)
    (lines : List Row) : Option (List Row) :=
  if ∀ r ∈ lines, (magOpt r.dilution).isSome = true then
    some (load_perceptual_data kind (fun s => (magOpt s).getD 0) lines)
  else none

/-- Accumulator form of pandas Index.duplicated: a position is flagged
when its key already appeared earlier. -/
def dupFlagsGo {α : Type} [DecidableEq α] (seen : List α) : List α → List Bool
  | [] => []
  | k :: rest => decide (k ∈ seen) :: dupFlagsGo (k :: seen) rest

/-- Model of df.index.duplicated() in format_bmc_data: the first
occurrence of each key is false, every later occurrence true. -/
def dupFlags {α : Type} [DecidableEq α] (l : List α) : List Bool :=
  dupFlagsGo [] l

/-- The replicate-flag assignment of format_bmc_data: each record keyed by
(CID, Dilution, Subject) is paired with its duplicated flag. -/
def addReplicateFlags {α : Type} [DecidableEq α] (l : List α) :
    List (α × Bool) :=
  l.zip (dupFlags l)

/-- The duplicate-key assertion of format_bmc_data after replicate
promotion: no extended (key, replicate) index entry is duplicated. -/
def bmcAssertPasses {α : Type} [DecidableEq α] (l : List α) : Prop :=
  ∀ b ∈ dupFlags (addReplicateFlags l), b = false

instance bmcAssertPassesDec {α : Type} [DecidableEq α] (l : List α) :
    Decidable (bmcAssertPasses l) := by
  unfold bmcAssertPasses
  infer_instance

/-- The replicate pass of format_bmc_data: the extended index is built
unconditionally; under the restricted (DREAM) subject scheme the
duplicate-key assertion must hold, and a violation aborts the run. -/
def format_bmc_replicates {α : Type} [DecidableEq α] (restricted : Bool)
    (l : List α) : Option (List (α × Bool)) :=
  if restricted ∧ ¬ bmcAssertPasses l then none
  else some (addReplicateFlags l)

/-- Keys fused with their duplicated flags in one pass, for induction. -/
def flaggedGo {α : Type} [DecidableEq α] (seen : List α) :
    List α → List (α × Bool)
  | [] => []
  | k :: rest => (k, decide (k ∈ seen)) :: flaggedGo (k :: seen) rest

/-- Prefix test over character lists, for the str.replace model. -/
def isPrefX : List Char → List Char → Bool
  | [], _ => true
  | _ :: _, [] => false
  | a :: as, b :: bs => decide (a = b) && isPrefX as bs

/-- Bounded-fuel core of Python str.replace: replace each non-overlapping
occurrence of pat scanning left to right; fuel equal to the string length
always suffices. -/
def replFuel (pat rep : List Char) : ℕ → List Char → List Char
  | 0, s => s
  | _ + 1, [] => []
  | f + 1, c :: rest =>
    if pat ≠ [] ∧ isPrefX pat (c :: rest) = true then
      rep ++ replFuel pat rep f ((c :: rest).drop pat.length)
    else c :: replFuel pat rep f rest

/-- Model of Python str.replace for a nonempty pattern. -/
def replaceAll (s pat rep : List Char) : List Char :=
  replFuel pat rep s.length s

/-- Model of int() on an optionally negated digit string. -/
def parseIntStr (l : List Char) : Option ℤ :=
  if l.head? = some '-' then (digitsVal? l.tail).map (fun n => -(n : ℤ))
  else (digitsVal? l).map (fun n => (n : ℤ))

/-- The CID fix-up of format_bmc_data: the CAS string of geranylacetone
(which had no CID in the raw data) is replaced by its compound id, the
wrong CAS recorded for isobutyl acetate by its compound id, and the
result is read as an integer. -/
def reconcile_compound_id (s : String) : Option ℤ :=
  parseIntStr
    (replaceAll (replaceAll s.data "3796-70-1".data "1549778".data)
      "109-19-0".data "8038".data)

/-- One raw record of the BMC (Keller and Vosshall) spreadsheet, reduced
to its two subject columns: the DREAM-challenge subject number (possibly
missing) and this-study subject number. -/
structure BmcRow where
  dreamSubject : Option ℚ
  nativeSubject : ℚ
deriving DecidableEq

/-- Integer truncation toward zero, as astype(int) performs on floats. -/
def truncQ (q : ℚ) : ℤ := q.num / (q.den : ℤ)

/-- The subject-scheme selection of format_bmc_data: under the restricted
(DREAM) scheme the designated subject column is filled with 0 where
missing, truncated to an integer, and only rows with a positive result
are kept; under the full scheme the native subject column is used for
every row. -/
def format_bmc_subjects (restricted : Bool) (rows : List BmcRow) :
    List (BmcRow × ℤ) :=
  if restricted then
    (rows.map (fun r => (r, truncQ ((r.dreamSubject).getD 0)))).filter
      (fun p => decide (0 < p.2))
  else rows.map (fun r => (r, truncQ r.nativeSubject))

/-- Lexicographic order on (CID, dilution) pairs, the order used by
Python sorted() on tuples and by MultiIndex.sort_values. -/
def pairLe (a b : ℤ × ℚ) : Prop :=
  a.1 < b.1 ∨ (a.1 = b.1 ∧ a.2 ≤ b.2)

instance pairLeDec : DecidableRel pairLe := fun a b => by
  unfold pairLe
  infer_instance

instance pairLeTotal : IsTotal (ℤ × ℚ) pairLe := by
  constructor
  intro a b
  rcases lt_trichotomy a.1 b.1 with h | h | h
  · exact Or.inl (Or.inl h)
  · rcases le_total a.2 b.2 with h2 | h2
    · exact Or.inl (Or.inr ⟨h, h2⟩)
    · exact Or.inr (Or.inr ⟨h.symm, h2⟩)
  · exact Or.inr (Or.inl h)

instance pairLeTrans : IsTrans (ℤ × ℚ) pairLe := by
  constructor
  intro a b c hab hbc
  rcases hab with h | ⟨e, h⟩
  · rcases hbc with h' | ⟨e', h'⟩
    · exact Or.inl (h.trans h')
    · exact Or.inl (e' ▸ h)
  · rcases hbc with h' | ⟨e', h'⟩
    · exact Or.inl (e ▸ h')
    · exact Or.inr ⟨e.trans e', h.trans h'⟩

/-- MultiIndex.sort_values on CID-dilution pairs. -/
def sortPairs (l : List (ℤ × ℚ)) : List (ℤ × ℚ) :=
  List.insertionSort pairLe l

/-- Python sorted(list(set(...))) on collected pairs: drop duplicates,
then sort. -/
def sortDedup (l : List (ℤ × ℚ)) : List (ℤ × ℚ) :=
  sortPairs l.dedup

/-- The target_dilution argument of get_CID_dilutions. -/
inductive TargetDilution where
  | noTarget
  | high
  | low
  | value (q : ℚ)
deriving DecidableEq

/-- The dilutions present for a CID among the formatted records of a
kind, used by get_CID_dilutions to find the highest dilution of each
compound. -/
def dilutionsOf (mag : String → ℚ) (recs : List Row) (cid : ℤ) : List ℚ :=
  (recs.filter (fun r => decide (r.cid = cid))).map (fun r => mag r.dilution)

/-- The keep test of the target_dilution filter in get_CID_dilutions:
None keeps everything, high keeps highest-dilution rows, low the others,
and a numeric target keeps exactly its own dilution. -/
def keepTarget (t : TargetDilution) (high : Bool) (dil : ℚ) : Bool :=
  match t with
  | TargetDilution.noTarget => true
  | TargetDilution.high => high
  | TargetDilution.low => !high
  | TargetDilution.value q => decide (dil = q)

/-- The uncached scan of get_CID_dilutions for the four base kinds:
iterate the formatted records of the kind, keep only replicate rows for
the replicated kind, apply the target_dilution filter, collect the (CID,
dilution) pair, and for the leaderboard and testset kinds also add the
intensity dilution -3. The descriptor-major repetition of records in the
formatted frame is dropped here because the collected pairs are
immediately deduplicated. -/
def collectNC (kind : Kind) (t : TargetDilution) (mag : String → ℚ)
    (lines : List Row) : List (ℤ × ℚ) :=
  (load_perceptual_data kind mag lines).flatMap (fun r =>
    if r.replicate = true ∨ kind ≠ Kind.replicated then
      if keepTarget t
          (decide ((dilutionsOf mag (load_perceptual_data kind mag lines)
              r.cid).maximum = (mag r.dilution : WithBot ℚ)))
          (mag r.dilution) = true then
        (r.cid, mag r.dilution) ::
          (if kind = Kind.leaderboard ∨ kind = Kind.testset
           then [(r.cid, (-3 : ℚ))] else [])
      else []
    else [])

/-- The uncached scan of a base kind followed by sorted(list(set(...))). -/
def cidDilutionsNCBase (kind : Kind) (t : TargetDilution)
    (mag : String → ℚ) (lines : List Row) : List (ℤ × ℚ) :=
  sortDedup (collectNC kind t mag lines)

/-- The uncached branch of get_CID_dilutions: the four base kinds are
scanned; the derived training-norep kind is the set difference of the
training result minus the replicated result, again deduplicated and
sorted. -/
def cidDilutionsNC (kind : Kind) (t : TargetDilution) (mag : String → ℚ)
    (lines : List Row) : List (ℤ × ℚ) :=
  if kind = Kind.trainingNorep then
    sortDedup ((cidDilutionsNCBase Kind.training t mag lines).filter
      (fun p =>
        decide (p ∉ cidDilutionsNCBase Kind.replicated t mag lines)))
  else cidDilutionsNCBase kind t mag lines

/-- Contents written to the per-kind cache file by cache_cid_dilutions:
the uncached derivation with the default target_dilution None. -/
def cacheContent (kind : Kind) (mag : String → ℚ) (lines : List Row) :
    List (ℤ × ℚ) :=
  cidDilutionsNC kind TargetDilution.noTarget mag lines

/-- The derived-data directory as a map from kind to the contents of its
cache file, when the file exists. -/
def CacheState : Type := Kind → Option (List (ℤ × ℚ))

/-- cache_cid_dilutions: recompute and write the cache file of every kind
unconditionally (the directory is created with exist_ok and each file is
opened for overwrite, so a second run cannot fail). -/
def cache_cid_dilutions (mag : String → ℚ) (lines : List Row)
    (_st : CacheState) : CacheState :=
  fun kind => some (cacheContent kind mag lines)

/-- The cached branch of get_CID_dilutions together with the resulting
directory state: a present cache file is read; an absent one triggers
cache_cid_dilutions, after which the freshly written file is read. -/
def getCDCached (kind : Kind) (mag : String → ℚ) (lines : List Row)
    (st : CacheState) : List (ℤ × ℚ) × CacheState :=
  match st kind with
  | some content => (sortPairs content, st)
  | none =>
      (sortPairs (cacheContent kind mag lines),
       cache_cid_dilutions mag lines st)

/-- get_CID_dilutions on a scalar kind: the cached branch ignores
target_dilution and reads (or first creates) the per-kind cache file;
the uncached branch scans; either way the final MultiIndex is built and
sort_values-ed. -/
def get_CID_dilutions (kind : Kind) (t : TargetDilution) (cached : Bool)
    (st : CacheState) (mag : String → ℚ) (lines : List Row) :
    List (ℤ × ℚ) :=
  if cached then (getCDCached kind mag lines st).1
  else sortPairs (cidDilutionsNC kind t mag lines)

/-- The list dispatch at the top of get_CID_dilutions: every kind in the
list is resolved through the scalar path; a one-element list skips the
MultiIndex append; the result is sort_values-ed before returning. -/
def get_CID_dilutions_list (kinds : List Kind) (t : TargetDilution)
    (cached : Bool) (st : CacheState) (mag : String → ℚ)
    (lines : List Row) : List (ℤ × ℚ) :=
  match kinds.map (fun k => get_CID_dilutions k t cached st mag lines) with
  | [d] => sortPairs d
  | ds => sortPairs ds.flatten

/-- The flipped high/low label computed by the row expansion of
load_perceptual_data. -/
def oppositeLabel (s : String) : String :=
  if s = "high" then "low" else "high"

/-- Modelled from the spec: the constant NUM_SUBJECTS lives in the
opc_python package init, which is not among the core sources; the spec
fixes 49 subjects, numbered 1 through 49. -/
def NUM_SUBJECTS : ℕ := 49

/-- Rounding to three decimal digits, as pandas round(3) computes it up
to the tie-breaking convention, which no claim observes. -/
def round3 (q : ℚ) : ℚ := ((round (q * 1000) : ℤ) : ℚ) / 1000

/-- Subchallenge-1 data rows of write_prediction_files: one row per
(CID, subject, descriptor), emitted as (CID, subject, long descriptor
name, rounded value), with subjects outermost, then the canonical
descriptor order, then the CID order of get_CIDs. -/
def write_prediction_rows_sc1 (Y : ℕ → String → ℤ → ℚ) (CIDs : List ℤ)
    (descsShort descsLong : List String) : List (ℤ × ℕ × String × ℚ) :=
  (List.range' 1 NUM_SUBJECTS).flatMap (fun subject =>
    (descsShort.zip descsLong).flatMap (fun d =>
      CIDs.map (fun cid => (cid, subject, d.2, round3 (Y subject d.1 cid)))))

/-- Subchallenge-2 data rows of write_prediction_files: one row per
(CID, descriptor), emitted as (CID, long descriptor name, rounded mean,
rounded standard deviation); the mean is rounded twice, as in the
source. -/
def write_prediction_rows_sc2 (Ymean Ystd : String → ℤ → ℚ)
    (CIDs : List ℤ) (descsShort descsLong : List String) :
    List (ℤ × String × ℚ × ℚ) :=
  (descsShort.zip descsLong).flatMap (fun d =>
    CIDs.map (fun cid =>
      (cid, d.2, round3 (round3 (Ymean d.1 cid)), round3 (Ystd d.1 cid))))

/-- The raw leaderboard-style row used to exercise the row expansion:
CID 1234, label high, dilution 1/10, intensity 7. -/
def c1Row : Row := ⟨1234, "N/A", false, "high", "1/10", some 7, [some 1, none]⟩

/-- The row order required of subchallenge-1 prediction files: subjects
ascending, then descriptors in their canonical display order, then
compound ids ascending. -/
def sc1RowOrder (dL : List String) (r rx : ℤ × ℕ × String × ℚ) : Prop :=
  r.2.1 < rx.2.1
  ∨ (r.2.1 = rx.2.1 ∧ (dL.indexOf r.2.2.1 < dL.indexOf rx.2.2.1
      ∨ (r.2.2.1 = rx.2.2.1 ∧ r.1 < rx.1)))

/-- The row order required of subchallenge-2 prediction files:
descriptors in canonical display order, then compound ids ascending. -/
def sc2RowOrder (dL : List String) (r rx : ℤ × String × ℚ × ℚ) : Prop :=
  dL.indexOf r.2.1 < dL.indexOf rx.2.1 ∨ (r.2.1 = rx.2.1 ∧ r.1 < rx.1)

lemma mem_removeChar {c : Char} {l : List Char} {a : Char} :
    a ∈ removeChar c l ↔ a ∈ l ∧ a ≠ c := by
  simp [removeChar]

lemma splitOnChar_eq_single (c : Char) (l : List Char) (h : c ∉ l) :
    splitOnChar c l = [l] := by
  induction l with
  | nil => rfl
  | cons x xs ih =>
    have hx : ¬(x = c) := by rintro rfl; exact h (List.mem_cons_self x xs)
    have hxs : c ∉ xs := fun hm => h (List.mem_cons_of_mem _ hm)
    simp only [splitOnChar, ih hxs, if_neg hx]

lemma splitOnChar_pair (c a : Char) (t : List Char) (ha : ¬(a = c)) (h : c ∉ t) :
    splitOnChar c (a :: c :: t) = [[a], t] := by
  simp [splitOnChar, splitOnChar_eq_single c t h, ha]

lemma digit_ne_slash {c : Char} (h : c.isDigit = true) : c ≠ '/' := by
  rintro rfl; exact absurd h (by decide)

lemma digit_ne_dot {c : Char} (h : c.isDigit = true) : c ≠ '.' := by
  rintro rfl; exact absurd h (by decide)

lemma parseRat?_digits (l : List Char) (h1 : l ≠ [])
    (h2 : ∀ c ∈ l, c.isDigit = true) :
    parseRat? l = some ((digitsVal l : ℕ) : ℚ) := by
  have hdot : '.' ∉ l := fun hm => digit_ne_dot (h2 _ hm) rfl
  have hsplit : splitOnChar '.' l = [l] := splitOnChar_eq_single _ _ hdot
  simp [parseRat?, hsplit, digitsVal?, h1, h2]
  rw [if_pos h2]
  rfl

lemma digitsVal?_eq_some {l : List Char} {d : ℕ} (h : digitsVal? l = some d) :
    l ≠ [] ∧ (∀ c ∈ l, c.isDigit = true) ∧ digitsVal l = d := by
  by_cases hc : l ≠ [] ∧ (∀ c ∈ l, c.isDigit = true)
  · refine ⟨hc.1, hc.2, ?_⟩
    simpa [digitsVal?, if_pos hc] using h
  · simp [digitsVal?, if_neg hc] at h

/-- Any string whose quote-stripped character list is 1 / followed by a
token of digits and commas reading d is parsed by the dilution
normalizer to the denominator d. -/
lemma dilution2denom_encodes (s : String) (t : List Char) (d : ℕ)
    (hs : removeQuotes s.data = '1' :: '/' :: t)
    (ht : ∀ c ∈ t, c.isDigit = true ∨ c = ',')
    (hv : digitsVal? (removeChar ',' t) = some d) :
    dilution2denom s = some ((d : ℕ) : ℚ) := by
  obtain ⟨hne, hdig, hval⟩ := digitsVal?_eq_some hv
  have hslash : '/' ∉ t := by
    intro hm
    rcases ht _ hm with hd | hc
    · exact digit_ne_slash hd rfl
    · exact absurd hc (by decide)
  have h1 : ¬(('1' : Char) = '/') := by decide
  have hsplit : splitOnChar '/' (removeQuotes s.data) = [['1'], t] := by
    rw [hs]; exact splitOnChar_pair '/' '1' t h1 hslash
  have hdig' : ∀ c ∈ removeChar ',' t, c.isDigit = true := hdig
  rw [dilution2denom, hsplit]
  simp only [List.getElem?_cons_zero, List.getElem?_cons_succ]
  rw [parseRat?_digits _ hne hdig', hval]

lemma flaggedGo_eq_zip {α : Type} [DecidableEq α] :
    ∀ (l seen : List α), flaggedGo seen l = l.zip (dupFlagsGo seen l) := by
  intro l
  induction l with
  | nil => intro seen; rfl
  | cons k rest ih =>
    intro seen
    simp [flaggedGo, dupFlagsGo, ih (k :: seen)]

lemma addReplicateFlags_eq_flaggedGo {α : Type} [DecidableEq α]
    (l : List α) : addReplicateFlags l = flaggedGo [] l :=
  (flaggedGo_eq_zip l []).symm

lemma flaggedGo_false_of_seen {α : Type} [DecidableEq α] (k : α) :
    ∀ (l seen : List α), k ∈ seen →
      (flaggedGo seen l).filter (fun p => decide (p.1 = k ∧ p.2 = false))
        = [] := by
  intro l
  induction l with
  | nil => intro seen _; rfl
  | cons a rest ih =>
    intro seen h
    have hstep : flaggedGo seen (a :: rest)
        = (a, decide (a ∈ seen)) :: flaggedGo (a :: seen) rest := rfl
    rw [hstep, List.filter_cons]
    have hpred : (decide ((a, decide (a ∈ seen)).1 = k
        ∧ (a, decide (a ∈ seen)).2 = false)) = false := by
      by_cases hak : a = k
      · subst hak
        simp [h]
      · simp [hak]
    rw [hpred, if_neg (by simp)]
    exact ih (a :: seen) (List.mem_cons_of_mem a h)

lemma flaggedGo_false_count {α : Type} [DecidableEq α] (k : α) :
    ∀ (l seen : List α),
      ((flaggedGo seen l).filter
        (fun p => decide (p.1 = k ∧ p.2 = false))).length ≤ 1 := by
  intro l
  induction l with
  | nil => intro seen; simp [flaggedGo]
  | cons a rest ih =>
    intro seen
    have hstep : flaggedGo seen (a :: rest)
        = (a, decide (a ∈ seen)) :: flaggedGo (a :: seen) rest := rfl
    rw [hstep, List.filter_cons]
    by_cases hc : a = k ∧ a ∉ seen
    · obtain ⟨rfl, hs⟩ := hc
      have hpred : (decide ((a, decide (a ∈ seen)).1 = a
          ∧ (a, decide (a ∈ seen)).2 = false)) = true := by
        simp [hs]
      rw [hpred, if_pos rfl, List.length_cons,
          flaggedGo_false_of_seen a rest (a :: seen)
            (List.mem_cons_self a seen)]
      simp
    · have hpred : (decide ((a, decide (a ∈ seen)).1 = k
          ∧ (a, decide (a ∈ seen)).2 = false)) = false := by
        by_cases hak : a = k
        · subst hak
          have hs : a ∈ seen := by
            by_contra hs
            exact hc ⟨rfl, hs⟩
          simp [hs]
        · simp [hak]
      rw [hpred, if_neg (by simp)]
      exact ih (a :: seen)

lemma flaggedGo_getElem? {α : Type} [DecidableEq α] (a : α) :
    ∀ (l₁ seen l₂ : List α),
      (flaggedGo seen (l₁ ++ a :: l₂))[l₁.length]?
        = some (a, decide (a ∈ l₁ ∨ a ∈ seen)) := by
  intro l₁
  induction l₁ with
  | nil =>
    intro seen l₂
    simp [flaggedGo]
  | cons b l₁ ih =>
    intro seen l₂
    rw [List.cons_append]
    have hstep : flaggedGo seen (b :: (l₁ ++ a :: l₂))
        = (b, decide (b ∈ seen)) :: flaggedGo (b :: seen) (l₁ ++ a :: l₂) :=
      rfl
    rw [hstep, List.length_cons, List.getElem?_cons_succ, ih (b :: seen) l₂]
    have hiff : (a ∈ l₁ ∨ a ∈ b :: seen) ↔ (a ∈ b :: l₁ ∨ a ∈ seen) := by
      simp only [List.mem_cons]
      tauto
    rw [decide_eq_decide.mpr hiff]

lemma dupFlagsGo_all_false {α : Type} [DecidableEq α] :
    ∀ (l seen : List α),
      (∀ b ∈ dupFlagsGo seen l, b = false)
        ↔ (l.Nodup ∧ ∀ a ∈ l, a ∉ seen) := by
  intro l
  induction l with
  | nil => intro seen; simp [dupFlagsGo]
  | cons k rest ih =>
    intro seen
    simp only [dupFlagsGo, List.mem_cons, List.nodup_cons, forall_eq_or_imp,
               decide_eq_false_iff_not, ih (k :: seen)]
    constructor
    · rintro ⟨hk, hrest, hall⟩
      refine ⟨⟨fun hkr => (hall k hkr) (Or.inl rfl), hrest⟩,
              hk, fun a ha hs => (hall a ha) (Or.inr hs)⟩
    · rintro ⟨⟨hkr, hrest⟩, hk, hall⟩
      refine ⟨hk, hrest, fun a ha h => ?_⟩
      rcases h with h | h
      · exact hkr (h ▸ ha)
      · exact hall a ha h

lemma bmcAssertPasses_iff_nodup {α : Type} [DecidableEq α] (l : List α) :
    bmcAssertPasses l ↔ (addReplicateFlags l).Nodup := by
  unfold bmcAssertPasses dupFlags
  rw [dupFlagsGo_all_false]
  simp

lemma length_le_one_of_nodup_all_eq {β : Type} (l : List β) (a : β)
    (hn : l.Nodup) (ha : ∀ x ∈ l, x = a) : l.length ≤ 1 := by
  match l with
  | [] => simp
  | [x] => simp
  | x :: y :: t =>
    exfalso
    have hx : x = a := ha x (by simp)
    have hy : y = a := ha y (by simp)
    rw [List.nodup_cons] at hn
    exact hn.1 (by simp [hx, hy])

lemma nodup_pair_flag_count {α : Type} [DecidableEq α]
    {l : List (α × Bool)} (h : l.Nodup) (k : α) (b : Bool) :
    (l.filter (fun p => decide (p.1 = k ∧ p.2 = b))).length ≤ 1 := by
  refine length_le_one_of_nodup_all_eq _ (k, b) (h.filter _) ?_
  intro x hx
  have hx2 := (List.mem_filter.mp hx).2
  simp only [decide_eq_true_eq] at hx2
  exact Prod.ext hx2.1 hx2.2

lemma isPrefX_mem : ∀ {p l : List Char}, isPrefX p l = true →
    ∀ c ∈ p, c ∈ l := by
  intro p
  induction p with
  | nil => intro l _ c hc; exact absurd hc (List.not_mem_nil c)
  | cons a as ih =>
    intro l h c hc
    match l with
    | [] => exact absurd h (by simp [isPrefX])
    | b :: bs =>
      simp only [isPrefX, Bool.and_eq_true, decide_eq_true_eq] at h
      rcases List.mem_cons.mp hc with rfl | hc
      · exact h.1 ▸ List.mem_cons_self b bs
      · exact List.mem_cons_of_mem b (ih h.2 c hc)

lemma replFuel_id (pat rep : List Char)
    (hpat : ∃ c ∈ pat, c.isDigit = false) :
    ∀ (f : ℕ) (s : List Char), (∀ c ∈ s, c.isDigit = true) →
      replFuel pat rep f s = s := by
  intro f
  induction f with
  | zero => intro s _; rfl
  | succ f ih =>
    intro s h
    match s with
    | [] => rfl
    | c :: rest =>
      have hpref : ¬(pat ≠ [] ∧ isPrefX pat (c :: rest) = true) := by
        rintro ⟨_, hpref⟩
        obtain ⟨d, hd, hdig⟩ := hpat
        have hmem : d ∈ c :: rest := isPrefX_mem hpref d hd
        rw [h d hmem] at hdig
        exact absurd hdig (by simp)
      rw [replFuel, if_neg hpref,
          ih rest (fun x hx => h x (List.mem_cons_of_mem c hx))]

lemma replaceAll_id (s pat rep : List Char)
    (hpat : ∃ c ∈ pat, c.isDigit = false)
    (hs : ∀ c ∈ s, c.isDigit = true) : replaceAll s pat rep = s :=
  replFuel_id pat rep hpat s.length s hs

lemma sortPairs_idem (l : List (ℤ × ℚ)) :
    sortPairs (sortPairs l) = sortPairs l :=
  (List.sorted_insertionSort pairLe l).insertionSort_eq

lemma mem_sortPairs {a : ℤ × ℚ} {l : List (ℤ × ℚ)} :
    a ∈ sortPairs l ↔ a ∈ l :=
  (List.perm_insertionSort pairLe l).mem_iff

lemma mem_sortDedup {a : ℤ × ℚ} {l : List (ℤ × ℚ)} :
    a ∈ sortDedup l ↔ a ∈ l := by
  rw [sortDedup, mem_sortPairs]
  exact List.mem_dedup

lemma cidDilutionsNC_norep_mem (t : TargetDilution) (mag : String → ℚ)
    (lines : List Row) (p : ℤ × ℚ) :
    p ∈ cidDilutionsNC Kind.trainingNorep t mag lines
      ↔ (p ∈ cidDilutionsNC Kind.training t mag lines
          ∧ p ∉ cidDilutionsNC Kind.replicated t mag lines) := by
  have h1 : cidDilutionsNC Kind.trainingNorep t mag lines
      = sortDedup ((cidDilutionsNCBase Kind.training t mag lines).filter
          (fun q =>
            decide (q ∉ cidDilutionsNCBase Kind.replicated t mag lines))) := by
    unfold cidDilutionsNC
    rw [if_pos rfl]
  have h2 : cidDilutionsNC Kind.training t mag lines
      = cidDilutionsNCBase Kind.training t mag lines := by
    unfold cidDilutionsNC
    rw [if_neg (by decide)]
  have h3 : cidDilutionsNC Kind.replicated t mag lines
      = cidDilutionsNCBase Kind.replicated t mag lines := by
    unfold cidDilutionsNC
    rw [if_neg (by decide)]
  rw [h1, h2, h3, mem_sortDedup, List.mem_filter]
  simp

lemma sum_map_const {α : Type} (l : List α) (c : ℕ) :
    (l.map (fun _ => c)).sum = l.length * c := by
  induction l with
  | nil => simp
  | cons a t ih =>
    simp [ih]
    ring

lemma pairwise_flatMap_of {α β : Type} {R : β → β → Prop} (f : α → List β)
    (l : List α) (hin : ∀ a ∈ l, (f a).Pairwise R)
    (hcross : l.Pairwise (fun a ax => ∀ x ∈ f a, ∀ y ∈ f ax, R x y)) :
    (l.flatMap f).Pairwise R := by
  induction l with
  | nil => simp
  | cons a t ih =>
    rw [List.flatMap_cons, List.pairwise_append]
    rw [List.pairwise_cons] at hcross
    refine ⟨hin a (List.mem_cons_self a t),
            ih (fun x hx => hin x (List.mem_cons_of_mem a hx)) hcross.2, ?_⟩
    intro x hx y hy
    rw [List.mem_flatMap] at hy
    obtain ⟨b, hb, hyb⟩ := hy
    exact hcross.1 b hb x hx y hyb

lemma pairwise_zip_indexOf (dS dL : List String) (hnd : dL.Nodup)
    (hlen : dS.length = dL.length) :
    (dS.zip dL).Pairwise
      (fun d dx => dL.indexOf d.2 < dL.indexOf dx.2) := by
  rw [List.pairwise_iff_getElem]
  intro i j hi hj hij
  have hzl : (dS.zip dL).length = dL.length := by
    rw [List.length_zip, hlen]
    exact min_self _
  have hi' : i < dL.length := hzl ▸ hi
  have hj' : j < dL.length := hzl ▸ hj
  simp only [List.getElem_zip]
  rw [List.indexOf_getElem hnd i hi', List.indexOf_getElem hnd j hj']
  exact hij

lemma round3_idem (q : ℚ) : round3 (round3 q) = round3 q := by
  unfold round3
  have h : (((round (q * 1000) : ℤ) : ℚ) / 1000) * 1000
      = ((round (q * 1000) : ℤ) : ℚ) := by
    field_simp
  rw [h, round_intCast]

/-- C1 (corrected from the claim): for every leaderboard row, and every
testset row away from magnitude -3, the expansion emits exactly two
records. The record kept at the row's original dilution carries the
non-intensity descriptor values with the intensity value blanked and is
tagged with the opposite of the recorded high/low label; the record
reassigned to the quoted dilution 1/1,000 (denominator 1000, magnitude
-3) carries only the intensity value and keeps the recorded label. -/
theorem claimC1 (kind : Kind) (mag : String → ℚ) (r : Row)
    (hk : kind = Kind.leaderboard
          ∨ (kind = Kind.testset ∧ mag r.dilution ≠ -3))
    (hl : r.highLow = "high" ∨ r.highLow = "low") :
    ∃ r1 r2, expandRow kind mag r = [r1, r2]
      ∧ r1.cid = r.cid ∧ r1.dilution = r.dilution ∧ r1.intensity = none
      ∧ r1.rest = r.rest ∧ r1.highLow = oppositeLabel r.highLow
      ∧ r2.cid = r.cid ∧ r2.dilution = dilutionM3String
      ∧ r2.intensity = r.intensity
      ∧ r2.rest = r.rest.map (fun _ => none)
      ∧ r2.highLow = r.highLow
      ∧ dilution2denom dilutionM3String = some 1000 := by
  refine ⟨{ r with
            highLow := (if r.highLow = "high" then "low" else "high"),
            intensity := none },
          { r with
            highLow :=
              (if (if r.highLow = "high" then "low" else "high") = "high"
               then "low" else "high"),
            dilution := dilutionM3String,
            rest := r.rest.map (fun _ => none) },
          ?_, rfl, rfl, rfl, rfl, rfl, rfl, rfl, rfl, rfl, ?_, by decide⟩
  · unfold expandRow
    rw [if_pos hk]
  · rcases hl with h | h <;> rw [h] <;> rfl

/-- C1 counterexample: the claim as stated requires the record kept at
the row's original dilution to carry the intensity value under the
recorded high/low label. For the concrete leaderboard row c1Row the code
emits no such record: at the original dilution the intensity is blanked
and the label flipped. -/
theorem claimC1_counterexample :
    ¬ ∃ rr ∈ expandRow Kind.leaderboard (fun _ => -1) c1Row,
      rr.dilution = "1/10" ∧ rr.intensity = some 7 ∧ rr.highLow = "high" := by
  decide

/-- C1 witness: the corrected statement evaluated on the concrete
leaderboard row c1Row. -/
theorem claimC1_witness :
    ∃ r1 r2, expandRow Kind.leaderboard (fun _ => -1) c1Row = [r1, r2]
      ∧ r1.cid = c1Row.cid ∧ r1.dilution = c1Row.dilution
      ∧ r1.intensity = none
      ∧ r1.rest = c1Row.rest ∧ r1.highLow = oppositeLabel c1Row.highLow
      ∧ r2.cid = c1Row.cid ∧ r2.dilution = dilutionM3String
      ∧ r2.intensity = c1Row.intensity
      ∧ r2.rest = c1Row.rest.map (fun _ => none)
      ∧ r2.highLow = c1Row.highLow
      ∧ dilution2denom dilutionM3String = some 1000 :=
  claimC1 Kind.leaderboard (fun _ => -1) c1Row (Or.inl rfl) (Or.inl rfl)

/-- C2 (corrected from the claim): the replicate pass gives the first
occurrence of every (CID, dilution, subject) key the flag false and every
later occurrence the flag true, so a key never has two false records;
and whenever the restricted-scheme duplicate assertion passes, the
extended index has no duplicates, so a key then also never has two
records with the same flag. -/
theorem claimC2 {α : Type} [DecidableEq α] (l : List α) (k : α)
    (out : List (α × Bool)) :
    (((addReplicateFlags l).filter
        (fun p => decide (p.1 = k ∧ p.2 = false))).length ≤ 1)
    ∧ (∀ (l₁ l₂ : List α) (a : α), l = l₁ ++ a :: l₂ →
        (addReplicateFlags l)[l₁.length]? = some (a, decide (a ∈ l₁)))
    ∧ (format_bmc_replicates true l = some out →
        out.Nodup
        ∧ ∀ b : Bool, ((out.filter
            (fun p => decide (p.1 = k ∧ p.2 = b))).length ≤ 1)) := by
  refine ⟨?_, ?_, ?_⟩
  · rw [addReplicateFlags_eq_flaggedGo]
    exact flaggedGo_false_count k l []
  · intro l₁ l₂ a h
    subst h
    rw [addReplicateFlags_eq_flaggedGo, flaggedGo_getElem? a l₁ [] l₂]
    have hiff : (a ∈ l₁ ∨ a ∈ ([] : List α)) ↔ a ∈ l₁ := by simp
    rw [decide_eq_decide.mpr hiff]
  · intro hout
    unfold format_bmc_replicates at hout
    by_cases ha : bmcAssertPasses l
    · rw [if_neg (by simp [ha])] at hout
      have heq : addReplicateFlags l = out := Option.some.inj hout
      have hnd : out.Nodup := heq ▸ (bmcAssertPasses_iff_nodup l).mp ha
      exact ⟨hnd, fun b => nodup_pair_flag_count hnd k b⟩
    · rw [if_pos ⟨rfl, ha⟩] at hout
      exact absurd hout (by simp)

/-- C2 counterexample: under the full subject scheme (no assertion) a key
occurring three times yields one false record and two true records, so
the claim that a key never maps to two records with the same replicate
flag is false on the code. -/
theorem claimC2_counterexample :
    format_bmc_replicates false
        [((1 : ℤ), (-3 : ℚ), (5 : ℤ)), (1, -3, 5), (1, -3, 5)]
      = some (addReplicateFlags
          [((1 : ℤ), (-3 : ℚ), (5 : ℤ)), (1, -3, 5), (1, -3, 5)])
    ∧ ((addReplicateFlags
          [((1 : ℤ), (-3 : ℚ), (5 : ℤ)), (1, -3, 5), (1, -3, 5)]).filter
        (fun p => decide (p.2 = true))).length = 2
    ∧ format_bmc_replicates true
        [((1 : ℤ), (-3 : ℚ), (5 : ℤ)), (1, -3, 5), (1, -3, 5)] = none := by
  refine ⟨?_, by decide, ?_⟩
  · unfold format_bmc_replicates
    rw [if_neg (by decide)]
  · unfold format_bmc_replicates
    rw [if_pos ⟨rfl, by decide⟩]

/-- C2 witness: a key occurring exactly twice, under the restricted
scheme: the run succeeds, the first record is unflagged, the second is
flagged, and no flag is repeated. -/
theorem claimC2_witness :
    ((addReplicateFlags [((1 : ℤ), (-3 : ℚ), (5 : ℤ)), (1, -3, 5)]).filter
        (fun p => decide (p.1 = ((1 : ℤ), (-3 : ℚ), (5 : ℤ))
            ∧ p.2 = false))).length ≤ 1
    ∧ (addReplicateFlags [((1 : ℤ), (-3 : ℚ), (5 : ℤ)), (1, -3, 5)]).Nodup := by
  refine ⟨(claimC2 [((1 : ℤ), (-3 : ℚ), (5 : ℤ)), (1, -3, 5)]
      ((1 : ℤ), (-3 : ℚ), (5 : ℤ)) []).1, ?_⟩
  have h := (claimC2 [((1 : ℤ), (-3 : ℚ), (5 : ℤ)), (1, -3, 5)]
      ((1 : ℤ), (-3 : ℚ), (5 : ℤ))
      (addReplicateFlags [((1 : ℤ), (-3 : ℚ), (5 : ℤ)), (1, -3, 5)])).2.2
  exact (h (by decide)).1

/-- C3: a (CID, dilution) pair belongs to the training-norep index
exactly when it belongs to the training index and not to the replicated
index; this holds for the uncached scan at every target dilution, and
for the cached path over a populated cache directory. -/
theorem claimC3 (t : TargetDilution) (mag : String → ℚ) (lines : List Row)
    (p : ℤ × ℚ) (st : CacheState) :
    (p ∈ cidDilutionsNC Kind.trainingNorep t mag lines
      ↔ (p ∈ cidDilutionsNC Kind.training t mag lines
          ∧ p ∉ cidDilutionsNC Kind.replicated t mag lines))
    ∧ (p ∈ get_CID_dilutions Kind.trainingNorep t true
          (cache_cid_dilutions mag lines st) mag lines
      ↔ (p ∈ get_CID_dilutions Kind.training t true
            (cache_cid_dilutions mag lines st) mag lines
          ∧ p ∉ get_CID_dilutions Kind.replicated t true
              (cache_cid_dilutions mag lines st) mag lines)) := by
  refine ⟨cidDilutionsNC_norep_mem t mag lines p, ?_⟩
  have hc : ∀ kd : Kind, p ∈ get_CID_dilutions kd t true
      (cache_cid_dilutions mag lines st) mag lines
      ↔ p ∈ cacheContent kd mag lines := by
    intro kd
    unfold get_CID_dilutions getCDCached
    rw [if_pos rfl]
    show p ∈ sortPairs (cacheContent kd mag lines) ↔ _
    exact mem_sortPairs
  rw [hc Kind.trainingNorep, hc Kind.training, hc Kind.replicated]
  exact cidDilutionsNC_norep_mem TargetDilution.noTarget mag lines p

/-- C4: the dilution magnitude depends only on the denominator read after
stripping quotes and commas. Any two strings of the shape 1/D whose
denominator token consists of digits and thousands-separator commas
reading the same d have equal magnitudes, and that magnitude is
log10 (1/d). -/
theorem claimC4 (s₁ s₂ : String) (t₁ t₂ : List Char) (d : ℕ) (x₁ x₂ : ℝ)
    (_hd : 0 < d)
    (h₁ : removeQuotes s₁.data = '1' :: '/' :: t₁)
    (h₂ : removeQuotes s₂.data = '1' :: '/' :: t₂)
    (ha₁ : ∀ c ∈ t₁, c.isDigit = true ∨ c = ',')
    (ha₂ : ∀ c ∈ t₂, c.isDigit = true ∨ c = ',')
    (hv₁ : digitsVal? (removeChar ',' t₁) = some d)
    (hv₂ : digitsVal? (removeChar ',' t₂) = some d)
    (hm₁ : dilution2magnitude s₁ x₁)
    (hm₂ : dilution2magnitude s₂ x₂) :
    x₁ = x₂ ∧ x₁ = Real.logb 10 (1 / ((d : ℕ) : ℝ)) := by
  have e₁ := dilution2denom_encodes s₁ t₁ d h₁ ha₁ hv₁
  have e₂ := dilution2denom_encodes s₂ t₂ d h₂ ha₂ hv₂
  obtain ⟨q₁, hq₁, _, hx₁⟩ := hm₁
  obtain ⟨q₂, hq₂, _, hx₂⟩ := hm₂
  rw [e₁] at hq₁
  rw [e₂] at hq₂
  have hqd₁ : ((d : ℕ) : ℚ) = q₁ := Option.some.inj hq₁
  have hqd₂ : ((d : ℕ) : ℚ) = q₂ := Option.some.inj hq₂
  rw [← hqd₁] at hx₁
  rw [← hqd₂] at hx₂
  have hcast : (((d : ℕ) : ℚ) : ℝ) = ((d : ℕ) : ℝ) := by push_cast; rfl
  rw [hcast] at hx₁ hx₂
  exact ⟨hx₁.trans hx₂.symm, hx₁⟩

/-- C4 witness: the plain, the singly-quoted and the comma-free encodings
of 1/1000 all parse to denominator 1000; the magnitudes of the plain and
quoted encodings agree and equal log10 (1/1000), which is -3. -/
theorem claimC4_witness :
    dilution2magnitude "1/1,000" (Real.logb 10 (1 / ((1000 : ℚ) : ℝ)))
    ∧ dilution2magnitude dilutionM3String
        (Real.logb 10 (1 / ((1000 : ℚ) : ℝ)))
    ∧ dilution2denom "1/1000" = some 1000
    ∧ (Real.logb 10 (1 / ((1000 : ℚ) : ℝ))
          = Real.logb 10 (1 / ((1000 : ℚ) : ℝ))
        ∧ Real.logb 10 (1 / ((1000 : ℚ) : ℝ))
          = Real.logb 10 (1 / ((1000 : ℕ) : ℝ)))
    ∧ Real.logb 10 (1 / ((1000 : ℕ) : ℝ)) = -3 := by
  have hm₁ : dilution2magnitude "1/1,000"
      (Real.logb 10 (1 / ((1000 : ℚ) : ℝ))) :=
    ⟨1000, by decide, by norm_num, rfl⟩
  have hm₂ : dilution2magnitude dilutionM3String
      (Real.logb 10 (1 / ((1000 : ℚ) : ℝ))) :=
    ⟨1000, by decide, by norm_num, rfl⟩
  refine ⟨hm₁, hm₂, by decide, ?_, ?_⟩
  · exact claimC4 "1/1,000" dilutionM3String ("1,000".data) ("1,000".data)
      1000 _ _ (by norm_num) (by decide) (by decide) (by decide) (by decide)
      (by decide) (by decide) hm₁ hm₂
  · rw [show ((1000 : ℕ) : ℝ) = (1000 : ℝ) from by norm_num, one_div,
        Real.logb_inv, show (1000 : ℝ) = 10 ^ (3 : ℕ) from by norm_num,
        Real.logb, Real.log_pow]
    have h10 : Real.log 10 ≠ 0 := ne_of_gt (Real.log_pos (by norm_num))
    field_simp

/-- C5: the compound-id fix-up sends the CAS string 3796-70-1 to
1549778, the CAS string 109-19-0 to 8038, and reads every all-digit
identifier string as that integer unchanged. -/
theorem claimC5 (s : String) (h1 : s.data ≠ [])
    (h2 : ∀ c ∈ s.data, c.isDigit = true) :
    reconcile_compound_id "3796-70-1" = some 1549778
    ∧ reconcile_compound_id "109-19-0" = some 8038
    ∧ reconcile_compound_id s = some ((digitsVal s.data : ℕ) : ℤ) := by
  refine ⟨by decide, by decide, ?_⟩
  have hr1 : replaceAll s.data ("3796-70-1".data) ("1549778".data)
      = s.data :=
    replaceAll_id _ _ _ ⟨'-', by decide, by decide⟩ h2
  have hr2 : replaceAll s.data ("109-19-0".data) ("8038".data) = s.data :=
    replaceAll_id _ _ _ ⟨'-', by decide, by decide⟩ h2
  unfold reconcile_compound_id
  rw [hr1, hr2]
  have hh : ¬ s.data.head? = some '-' := by
    rcases hs : s.data with _ | ⟨c, rest⟩
    · exact absurd hs h1
    · rw [List.head?_cons]
      intro hcon
      have hc : c = '-' := Option.some.inj hcon
      have hcdig : c.isDigit = true :=
        h2 c (by rw [hs]; exact List.mem_cons_self c rest)
      rw [hc] at hcdig
      exact absurd hcdig (by decide)
  unfold parseIntStr
  rw [if_neg hh]
  unfold digitsVal?
  rw [if_pos ⟨h1, h2⟩]
  rfl

/-- C5 witness: the two CAS fix-ups and the pass-through of the numeric
identifier string 8038. -/
theorem claimC5_witness :
    (reconcile_compound_id "3796-70-1" = some 1549778
     ∧ reconcile_compound_id "109-19-0" = some 8038
     ∧ reconcile_compound_id "8038"
         = some ((digitsVal "8038".data : ℕ) : ℤ))
    ∧ reconcile_compound_id "8038" = some 8038 :=
  ⟨claimC5 "8038" (by decide) (by decide), by decide⟩

/-- C6 (corrected from the claim): under the restricted scheme a raw
record is kept exactly when the integer truncation of its designated
DREAM subject field (missing read as 0) is positive, in which case that
value is its subject id; every kept record has a non-missing field, but
a non-missing non-positive field is also dropped. Under the full scheme
every record's native subject field is used. -/
theorem claimC6 (rows : List BmcRow) (r : BmcRow) (sid : ℤ) :
    ((r, sid) ∈ format_bmc_subjects true rows
      ↔ (r ∈ rows ∧ sid = truncQ ((r.dreamSubject).getD 0) ∧ 0 < sid))
    ∧ ((r, sid) ∈ format_bmc_subjects true rows → r.dreamSubject ≠ none)
    ∧ format_bmc_subjects false rows
        = rows.map (fun x => (x, truncQ x.nativeSubject)) := by
  have hiff : (r, sid) ∈ format_bmc_subjects true rows
      ↔ (r ∈ rows ∧ sid = truncQ ((r.dreamSubject).getD 0) ∧ 0 < sid) := by
    unfold format_bmc_subjects
    rw [if_pos rfl]
    rw [List.mem_filter]
    simp only [List.mem_map, decide_eq_true_eq]
    constructor
    · rintro ⟨⟨x, hx, hxeq⟩, hpos⟩
      have hx1 : x = r := congrArg Prod.fst hxeq
      have hx2 : truncQ ((x.dreamSubject).getD 0) = sid :=
        congrArg Prod.snd hxeq
      subst hx1
      exact ⟨hx, hx2.symm, hpos⟩
    · rintro ⟨hr, hsid, hpos⟩
      exact ⟨⟨r, hr, by rw [hsid]⟩, hpos⟩
  refine ⟨hiff, ?_, ?_⟩
  · intro hmem hnone
    obtain ⟨_, hsid, hpos⟩ := hiff.mp hmem
    rw [hnone] at hsid
    have h0 : truncQ ((none : Option ℚ).getD 0) = 0 := by decide
    rw [h0] at hsid
    rw [hsid] at hpos
    exact lt_irrefl 0 hpos
  · unfold format_bmc_subjects
    rw [if_neg (by simp)]

/-- C6 counterexample: a record whose designated DREAM subject field is
present but zero is non-missing yet dropped by the restricted scheme,
refuting the claimed kept-iff-non-missing equivalence. -/
theorem claimC6_counterexample :
    (BmcRow.mk (some 0) 1).dreamSubject ≠ none
    ∧ format_bmc_subjects true [BmcRow.mk (some 0) 1] = [] := by
  decide

/-- C6 witness: the corrected statement evaluated on a record whose
designated field holds 7: the record is kept with subject id 7. -/
theorem claimC6_witness :
    (BmcRow.mk (some 7) 1, (7 : ℤ))
      ∈ format_bmc_subjects true [BmcRow.mk (some 7) 1] :=
  (claimC6 [BmcRow.mk (some 7) 1] (BmcRow.mk (some 7) 1) 7).1.mpr
    (by refine ⟨by decide, by decide, by decide⟩)

/-- C7: cache_cid_dilutions is idempotent on the cache directory and a
second run rewrites byte-identical contents; when a per-kind cache file
is absent, the cached call computes the full derivation, persists it,
and returns it instead of raising; running the cached call again on the
populated directory changes nothing. -/
theorem claimC7 (mag : String → ℚ) (lines : List Row) (st : CacheState)
    (kind : Kind) (h : st kind = none) :
    cache_cid_dilutions mag lines (cache_cid_dilutions mag lines st)
      = cache_cid_dilutions mag lines st
    ∧ (getCDCached kind mag lines st).1
        = sortPairs (cacheContent kind mag lines)
    ∧ (getCDCached kind mag lines st).2 kind
        = some (cacheContent kind mag lines)
    ∧ (getCDCached kind mag lines ((getCDCached kind mag lines st).2)).2
        = (getCDCached kind mag lines st).2 := by
  have hmatch : getCDCached kind mag lines st
      = (sortPairs (cacheContent kind mag lines),
         cache_cid_dilutions mag lines st) := by
    unfold getCDCached
    rw [h]
  refine ⟨rfl, ?_, ?_, ?_⟩
  · rw [hmatch]
  · rw [hmatch]
    rfl
  · rw [hmatch]
    rfl

/-- C7 witness: the conclusion evaluated on the empty directory for the
training kind. -/
theorem claimC7_witness :
    cache_cid_dilutions (fun _ => 0) []
        (cache_cid_dilutions (fun _ => 0) [] (fun _ => none))
      = cache_cid_dilutions (fun _ => 0) [] (fun _ => none)
    ∧ (getCDCached Kind.training (fun _ => 0) [] (fun _ => none)).1
        = sortPairs (cacheContent Kind.training (fun _ => 0) [])
    ∧ (getCDCached Kind.training (fun _ => 0) [] (fun _ => none)).2
        Kind.training
        = some (cacheContent Kind.training (fun _ => 0) [])
    ∧ (getCDCached Kind.training (fun _ => 0) []
        ((getCDCached Kind.training (fun _ => 0) [] (fun _ => none)).2)).2
        = (getCDCached Kind.training (fun _ => 0) [] (fun _ => none)).2 :=
  claimC7 (fun _ => 0) [] (fun _ => none) Kind.training rfl

/-- C8: the dilution normalizer fails on every string with no slash after
quote removal and on every slash string whose denominator token is
non-numeric; an out-of-enumeration kind name and an unknown molecular
source name fail immediately; and one malformed dilution aborts the whole
perceptual load with no partial result. -/
theorem claimC8 (s ks src : String) (magOpt : String → Option ℚ)
    (kind : Kind) (lines : List Row)
    (h1 : (splitOnChar '/' (removeQuotes s.data))[1]? = none
          ∨ ∃ tok, (splitOnChar '/' (removeQuotes s.data))[1]? = some tok
              ∧ parseRat? (removeChar ',' tok) = none)
    (h2 : ks ∉ ["training", "training-norep", "replicated",
                "leaderboard", "testset"])
    (h3 : src ∉ ["dragon", "episuite", "morgan", "nspdk", "gramian",
                 "mordred"])
    (h4 : ∃ r ∈ lines, magOpt r.dilution = none) :
    dilution2denom s = none ∧ kind2 ks = none
    ∧ sourceOfString src = none
    ∧ load_perceptual_dataE kind magOpt lines = none := by
  refine ⟨?_, ?_, ?_, ?_⟩
  · unfold dilution2denom
    rcases h1 with h | ⟨tok, htok, hbad⟩
    · rw [h]
    · rw [htok]
      exact hbad
  · simp only [List.mem_cons, List.not_mem_nil, or_false] at h2
    push_neg at h2
    obtain ⟨n1, n2, n3, n4, n5⟩ := h2
    unfold kind2
    rw [if_neg (by rintro (h | h | h); exacts [n1 h, n2 h, n3 h]),
        if_neg n4, if_neg n5]
  · simp only [List.mem_cons, List.not_mem_nil, or_false] at h3
    push_neg at h3
    obtain ⟨m1, m2, m3, m4, m5, m6⟩ := h3
    unfold sourceOfString
    rw [if_neg m1, if_neg m2, if_neg m3, if_neg m4, if_neg m5, if_neg m6]
  · unfold load_perceptual_dataE
    have hnall : ¬ ∀ r ∈ lines, (magOpt r.dilution).isSome = true := by
      obtain ⟨r, hr, hnone⟩ := h4
      intro hall
      have h := hall r hr
      rw [hnone] at h
      exact absurd h (by decide)
    rw [if_neg hnall]

/-- C8 witness: a slash-free string, an unknown kind name, an unknown
source name, and a load whose single row has an unparseable dilution. -/
theorem claimC8_witness :
    dilution2denom "abc" = none ∧ kind2 "foo" = none
    ∧ sourceOfString "bar" = none
    ∧ load_perceptual_dataE Kind.training (fun s => dilution2denom s)
        [⟨1, "x", false, "high", "xyz", none, []⟩] = none :=
  claimC8 "abc" "foo" "bar" (fun s => dilution2denom s) Kind.training
    [⟨1, "x", false, "high", "xyz", none, []⟩]
    (Or.inl (by decide)) (by decide) (by decide) (by decide)

/-- C9: the prediction writer is a pure function of its inputs. For
subchallenge 1 it emits NUM_SUBJECTS x descriptors x compounds rows,
each row being (CID, subject, long descriptor name, value rounded to
three decimals), one per key (the keys are pairwise distinct), ordered
subjects ascending, then canonical descriptor order, then CIDs
ascending. For subchallenge 2 it emits descriptors x compounds rows
(CID, long descriptor name, rounded mean, rounded standard deviation)
with the same uniqueness and ordering over (descriptor, CID). -/
theorem claimC9 (Y : ℕ → String → ℤ → ℚ) (Ymean Ystd : String → ℤ → ℚ)
    (CIDs : List ℤ) (dS dL : List String)
    (hlen : dS.length = dL.length) (hnd : dL.Nodup)
    (hsorted : List.Sorted (· < ·) CIDs) :
    ((write_prediction_rows_sc1 Y CIDs dS dL).length
        = NUM_SUBJECTS * dL.length * CIDs.length)
    ∧ (∀ row, row ∈ write_prediction_rows_sc1 Y CIDs dS dL
        ↔ ∃ s ∈ List.range' 1 NUM_SUBJECTS, ∃ d ∈ dS.zip dL,
            ∃ cid ∈ CIDs, row = (cid, s, d.2, round3 (Y s d.1 cid)))
    ∧ List.Pairwise (fun r rx => ¬(r.1 = rx.1 ∧ r.2.1 = rx.2.1
          ∧ r.2.2.1 = rx.2.2.1)) (write_prediction_rows_sc1 Y CIDs dS dL)
    ∧ List.Pairwise (sc1RowOrder dL) (write_prediction_rows_sc1 Y CIDs dS dL)
    ∧ ((write_prediction_rows_sc2 Ymean Ystd CIDs dS dL).length
        = dL.length * CIDs.length)
    ∧ (∀ row, row ∈ write_prediction_rows_sc2 Ymean Ystd CIDs dS dL
        ↔ ∃ d ∈ dS.zip dL, ∃ cid ∈ CIDs,
            row = (cid, d.2, round3 (Ymean d.1 cid), round3 (Ystd d.1 cid)))
    ∧ List.Pairwise (fun r rx => ¬(r.1 = rx.1 ∧ r.2.1 = rx.2.1))
        (write_prediction_rows_sc2 Ymean Ystd CIDs dS dL)
    ∧ List.Pairwise (sc2RowOrder dL)
        (write_prediction_rows_sc2 Ymean Ystd CIDs dS dL) := by
  have hzl : (dS.zip dL).length = dL.length := by
    rw [List.length_zip, hlen]
    exact min_self _
  have horder1 : List.Pairwise (sc1RowOrder dL)
      (write_prediction_rows_sc1 Y CIDs dS dL) := by
    unfold write_prediction_rows_sc1
    apply pairwise_flatMap_of
    · intro s _
      apply pairwise_flatMap_of
      · intro d _
        rw [List.pairwise_map]
        exact List.Pairwise.imp
          (fun hab => Or.inr ⟨rfl, Or.inr ⟨rfl, hab⟩⟩) hsorted
      · refine List.Pairwise.imp ?_ (pairwise_zip_indexOf dS dL hnd hlen)
        intro d dx hdd x hx y hy
        obtain ⟨c, _, rfl⟩ := List.mem_map.mp hx
        obtain ⟨cx, _, rfl⟩ := List.mem_map.mp hy
        exact Or.inr ⟨rfl, Or.inl hdd⟩
    · refine List.Pairwise.imp ?_ (List.pairwise_lt_range' 1 NUM_SUBJECTS)
      intro s sx hss x hx y hy
      rw [List.mem_flatMap] at hx hy
      obtain ⟨d, _, hxd⟩ := hx
      obtain ⟨dx, _, hyd⟩ := hy
      obtain ⟨c, _, rfl⟩ := List.mem_map.mp hxd
      obtain ⟨cx, _, rfl⟩ := List.mem_map.mp hyd
      exact Or.inl hss
  have hkeys1 : List.Pairwise (fun r rx => ¬(r.1 = rx.1 ∧ r.2.1 = rx.2.1
      ∧ r.2.2.1 = rx.2.2.1)) (write_prediction_rows_sc1 Y CIDs dS dL) := by
    refine horder1.imp ?_
    intro r rx h hk
    rcases h with h | ⟨_, h⟩
    · exact absurd hk.2.1 (Nat.ne_of_lt h)
    · rcases h with h | ⟨_, h⟩
      · rw [hk.2.2] at h
        exact lt_irrefl _ h
      · rw [hk.1] at h
        exact lt_irrefl _ h
  have hmem1 : ∀ row, row ∈ write_prediction_rows_sc1 Y CIDs dS dL
      ↔ ∃ s ∈ List.range' 1 NUM_SUBJECTS, ∃ d ∈ dS.zip dL, ∃ cid ∈ CIDs,
          row = (cid, s, d.2, round3 (Y s d.1 cid)) := by
    intro row
    simp only [write_prediction_rows_sc1, List.mem_flatMap, List.mem_map]
    constructor
    · rintro ⟨s, hs, d, hd, c, hc, h⟩
      exact ⟨s, hs, d, hd, c, hc, h.symm⟩
    · rintro ⟨s, hs, d, hd, c, hc, h⟩
      exact ⟨s, hs, d, hd, c, hc, h.symm⟩
  have hlen1 : (write_prediction_rows_sc1 Y CIDs dS dL).length
      = NUM_SUBJECTS * dL.length * CIDs.length := by
    unfold write_prediction_rows_sc1
    rw [List.length_flatMap]
    have hb : ∀ s ∈ List.range' 1 NUM_SUBJECTS,
        (List.length ∘ fun subject => (dS.zip dL).flatMap (fun d =>
          CIDs.map (fun cid =>
            (cid, subject, d.2, round3 (Y subject d.1 cid))))) s
          = (dS.zip dL).length * CIDs.length := by
      intro s _
      show ((dS.zip dL).flatMap (fun d => CIDs.map (fun cid =>
        (cid, s, d.2, round3 (Y s d.1 cid))))).length = _
      rw [List.length_flatMap]
      have hc : ∀ d ∈ dS.zip dL,
          (List.length ∘ fun d => CIDs.map (fun cid =>
            (cid, s, d.2, round3 (Y s d.1 cid)))) d = CIDs.length := by
        intro d _
        exact List.length_map _ _
      rw [List.map_congr_left hc, sum_map_const]
    rw [List.map_congr_left hb, sum_map_const, List.length_range', hzl]
    ring
  have horder2 : List.Pairwise (sc2RowOrder dL)
      (write_prediction_rows_sc2 Ymean Ystd CIDs dS dL) := by
    unfold write_prediction_rows_sc2
    apply pairwise_flatMap_of
    · intro d _
      rw [List.pairwise_map]
      exact List.Pairwise.imp (fun hab => Or.inr ⟨rfl, hab⟩) hsorted
    · refine List.Pairwise.imp ?_ (pairwise_zip_indexOf dS dL hnd hlen)
      intro d dx hdd x hx y hy
      obtain ⟨c, _, rfl⟩ := List.mem_map.mp hx
      obtain ⟨cx, _, rfl⟩ := List.mem_map.mp hy
      exact Or.inl hdd
  have hkeys2 : List.Pairwise (fun r rx => ¬(r.1 = rx.1 ∧ r.2.1 = rx.2.1))
      (write_prediction_rows_sc2 Ymean Ystd CIDs dS dL) := by
    refine horder2.imp ?_
    intro r rx h hk
    rcases h with h | ⟨_, h⟩
    · rw [hk.2] at h
      exact lt_irrefl _ h
    · rw [hk.1] at h
      exact lt_irrefl _ h
  have hmem2 : ∀ row, row ∈ write_prediction_rows_sc2 Ymean Ystd CIDs dS dL
      ↔ ∃ d ∈ dS.zip dL, ∃ cid ∈ CIDs,
          row = (cid, d.2, round3 (Ymean d.1 cid), round3 (Ystd d.1 cid)) := by
    intro row
    simp only [write_prediction_rows_sc2, List.mem_flatMap, List.mem_map,
               round3_idem]
    constructor
    · rintro ⟨d, hd, c, hc, h⟩
      exact ⟨d, hd, c, hc, h.symm⟩
    · rintro ⟨d, hd, c, hc, h⟩
      exact ⟨d, hd, c, hc, h.symm⟩
  have hlen2 : (write_prediction_rows_sc2 Ymean Ystd CIDs dS dL).length
      = dL.length * CIDs.length := by
    unfold write_prediction_rows_sc2
    rw [List.length_flatMap]
    have hc : ∀ d ∈ dS.zip dL,
        (List.length ∘ fun d => CIDs.map (fun cid =>
          (cid, d.2, round3 (round3 (Ymean d.1 cid)),
           round3 (Ystd d.1 cid)))) d = CIDs.length := by
      intro d _
      exact List.length_map _ _
    rw [List.map_congr_left hc, sum_map_const, hzl]
  exact ⟨hlen1, hmem1, hkeys1, horder1, hlen2, hmem2, hkeys2, horder2⟩

/-- C9 witness: the row counts of both subchallenges on a concrete
case with two compounds and one descriptor. -/
theorem claimC9_witness :
    (write_prediction_rows_sc1 (fun _ _ _ => 0) [1, 2] ["I"] ["IS"]).length
        = NUM_SUBJECTS * ["IS"].length * [(1 : ℤ), 2].length
    ∧ (write_prediction_rows_sc2 (fun _ _ => 0) (fun _ _ => 0)
        [1, 2] ["I"] ["IS"]).length = ["IS"].length * [(1 : ℤ), 2].length :=
  ⟨(claimC9 (fun _ _ _ => 0) (fun _ _ => 0) (fun _ _ => 0) [1, 2]
      ["I"] ["IS"] (by decide) (by decide) (by decide)).1,
   (claimC9 (fun _ _ _ => 0) (fun _ _ => 0) (fun _ _ => 0) [1, 2]
      ["I"] ["IS"] (by decide) (by decide) (by decide)).2.2.2.2.1⟩

/-- C10: dispatching get_CID_dilutions on the one-element kind list [k]
returns exactly the scalar result for k, for every target dilution,
cached flag and cache directory state. -/
theorem claimC10 (k : Kind) (t : TargetDilution) (cached : Bool)
    (st : CacheState) (mag : String → ℚ) (lines : List Row) :
    get_CID_dilutions_list [k] t cached st mag lines
      = get_CID_dilutions k t cached st mag lines := by
  show sortPairs (get_CID_dilutions k t cached st mag lines)
      = get_CID_dilutions k t cached st mag lines
  unfold get_CID_dilutions
  cases cached with
  | false => exact sortPairs_idem _
  | true =>
    unfold getCDCached
    rcases st k with _ | content
    · exact sortPairs_idem _
    · exact sortPairs_idem _

/-- C3 witness: the set-difference law evaluated at a concrete pair,
target, magnitude map, row list and cache directory. -/
theorem claimC3_witness :
    (((1 : ℤ), (-3 : ℚ)) ∈ cidDilutionsNC Kind.trainingNorep
        TargetDilution.noTarget (fun _ => 0) []
      ↔ (((1 : ℤ), (-3 : ℚ)) ∈ cidDilutionsNC Kind.training
            TargetDilution.noTarget (fun _ => 0) []
          ∧ ((1 : ℤ), (-3 : ℚ)) ∉ cidDilutionsNC Kind.replicated
              TargetDilution.noTarget (fun _ => 0) []))
    ∧ (((1 : ℤ), (-3 : ℚ)) ∈ get_CID_dilutions Kind.trainingNorep
          TargetDilution.noTarget true
          (cache_cid_dilutions (fun _ => 0) [] (fun _ => none))
          (fun _ => 0) []
      ↔ (((1 : ℤ), (-3 : ℚ)) ∈ get_CID_dilutions Kind.training
            TargetDilution.noTarget true
            (cache_cid_dilutions (fun _ => 0) [] (fun _ => none))
            (fun _ => 0) []
          ∧ ((1 : ℤ), (-3 : ℚ)) ∉ get_CID_dilutions Kind.replicated
              TargetDilution.noTarget true
              (cache_cid_dilutions (fun _ => 0) [] (fun _ => none))
              (fun _ => 0) [])) :=
  claimC3 TargetDilution.noTarget (fun _ => 0) [] ((1 : ℤ), (-3 : ℚ))
    (fun _ => none)

/-- C10 witness: the singleton-list dispatch evaluated for the training
kind on the empty directory. -/
theorem claimC10_witness :
    get_CID_dilutions_list [Kind.training] TargetDilution.noTarget true
        (fun _ => none) (fun _ => 0) []
      = get_CID_dilutions Kind.training TargetDilution.noTarget true
          (fun _ => none) (fun _ => 0) [] :=
  claimC10 Kind.training TargetDilution.noTarget true (fun _ => none)
    (fun _ => 0) []
